import Mathlib

/-!
# Verification of the salt-api remote-operation adapter

Shallow embedding of `plugins/connection/saltapi.py`: the path normalizer
(`_normalize_path`, built on `posixpath.normpath` and `posixpath.join`),
the session manager (`_get_session`), and the remote-operation adapter
(`exec_command`, `put_file`, `fetch_file`, `close`).

Python strings are modelled as Lean `String` (with the underlying
`List Char` as the character sequence); `bytes` as `List Nat`;
JSON objects as association lists; raised exceptions as `Except` errors.
-/

namespace SaltApi

/-- Association-list lookup, modelling Python `d[key]` / `d.get(key)` on a
JSON object or dict whose entries are in insertion order. -/
def lookupAssoc {α : Type} : List (String × α) → String → Option α
  | [], _ => none
  | (k, v) :: rest, key => if k = key then some v else lookupAssoc rest key

/-- Association-list update, modelling Python `d.update({k: v})` /
`d[k] = v` on a dict: replaces the value at `k` if present, else appends. -/
def updateAssoc {α : Type} : List (String × α) → String → α → List (String × α)
  | [], k, v => [(k, v)]
  | (k0, v0) :: rest, k, v =>
    if k0 = k then (k, v) :: rest else (k0, v0) :: updateAssoc rest k v

/-- Python `s.startswith(t)` on strings. -/
def strStartsWith (s t : String) : Bool := t.data.isPrefixOf s.data

/-- Python `s.endswith(t)` on strings. -/
def strEndsWith (s t : String) : Bool := t.data.isSuffixOf s.data

/-! ## Path normalizer

`posixpath.normpath` and `posixpath.join` (the `os.path` functions for
separator `'/'`), then `Connection._normalize_path` on top of them. -/

/-- Python `str.split('/')` on the character list: splits at every `'/'`,
keeping empty segments, and returns `[[]]` on the empty string. -/
def splitCh : List Char → List (List Char)
  | [] => [[]]
  | c :: rest =>
    if c = '/' then [] :: splitCh rest
    else
      match splitCh rest with
      | [] => [[c]]
      | s :: ss => (c :: s) :: ss

/-- `'/'.join(comps)` on character lists: interleaves a single `'/'`
between the segments. -/
def joinSegs : List (List Char) → List Char
  | [] => []
  | [x] => x
  | x :: y :: t => x ++ '/' :: joinSegs (y :: t)

/-- One step of `posixpath.normpath`'s component loop: skip empty and `'.'`
components; append a component unless it is a `'..'` that cancels against a
previous real component (relative paths keep leading `'..'`s; absolute
paths drop `'..'` at the root). -/
def npStep (slashes : Nat) (acc : List (List Char)) (comp : List Char) : List (List Char) :=
  if comp = [] ∨ comp = ['.'] then acc
  else if comp ≠ ['.', '.'] ∨ (slashes = 0 ∧ acc = []) ∨ acc.getLast? = some ['.', '.'] then
    acc ++ [comp]
  else if acc ≠ [] then acc.dropLast
  else acc

/-- `posixpath.normpath`'s leading-slash count: POSIX keeps exactly two
leading separators as two; one, or three and more, collapse to one. -/
def initialSlashes (p : List Char) : Nat :=
  if ['/'].isPrefixOf p then
    if ['/', '/'].isPrefixOf p ∧ ¬ (['/', '/', '/'].isPrefixOf p) then 2 else 1
  else 0

/-- `posixpath.normpath` on the character list: collapses `'.'`, `'..'`
and redundant separators; empty input and all-collapsed input give `"."`. -/
def normpathCh (p : List Char) : List Char :=
  if p = [] then ['.']
  else
    let out := List.replicate (initialSlashes p) '/' ++
      joinSegs ((splitCh p).foldl (npStep (initialSlashes p)) [])
    if out = [] then ['.'] else out

/-- `os.path.normpath` (POSIX flavour) on strings. -/
def normpath (s : String) : String := String.mk (normpathCh s.data)

/-- `os.path.join(a, b)` (POSIX flavour, two arguments): an absolute `b`
discards `a`; otherwise `b` is appended, inserting a separator unless `a`
is empty or already ends in one. -/
def pyJoin (a b : String) : String :=
  if strStartsWith b "/" = true then b
  else if a = "" ∨ strEndsWith a "/" = true then a ++ b
  else a ++ "/" ++ b

/-- `Connection._normalize_path(path, prefix)`: anchors `path` at the
separator when not already absolute, normalizes it, then re-roots the
result (with its leading separator stripped) under the given prefix. -/
def normalize_path (path pre : String) : String :=
  let path := if strStartsWith path "/" = false then pyJoin "/" path else path
  let np := normpath path
  pyJoin pre (String.mk (np.data.drop 1))

/-- The string `s` has a `".."` path segment: `".."` is one of the
components obtained by splitting at `'/'`. -/
def hasDotDotSegment (s : String) : Prop := ['.', '.'] ∈ splitCh s.data

instance (s : String) : Decidable (hasDotDotSegment s) := by
  unfold hasDotDotSegment; infer_instance

/-! ## Data model of the adapter -/

/-- Connection options resolved by `get_option`: `url` (salt master
endpoint), `token` (value for the X-Auth-Token header), `validate_certs`
(TLS verification toggle, default true in the plugin documentation). -/
structure Options where
  url : String
  token : String
  validate_certs : Bool
  deriving Repr, DecidableEq

/-- The per-host result record of a `cmd.exec_code_all` dispatch:
`retcode`, `stdout`, `stderr`. -/
structure HostResult where
  retcode : Int
  stdout : String
  stderr : String
  deriving Repr, DecidableEq

/-- The parsed response JSON's `return` field: an array of objects mapping
host identifiers to per-host result records. -/
structure ApiResponse where
  ret : List (List (String × HostResult))
  deriving Repr, DecidableEq

/-- One element of the `json_body` request list:
`{client, tgt, fun, arg}`. `fun` is a Lean keyword, so the field is `fn`. -/
structure Envelope where
  client : String
  tgt : String
  fn : String
  arg : List String
  deriving Repr, DecidableEq

/-- An HTTP POST as issued by `self._session.post(url, json=json_body)`:
the target URL, the session headers that requests attaches, and the JSON
body. -/
structure PostRequest where
  url : String
  headers : List (String × String)
  body : List Envelope
  deriving Repr, DecidableEq

/-- A `requests` session as configured by `_get_session`: the `verify`
flag and the header dict. -/
structure Session where
  verify : Bool
  headers : List (String × String)
  deriving Repr, DecidableEq

/-- The mutable connector state: `self.host`, `self._session`,
`self._connected`. -/
structure ConnState where
  host : String
  session : Option Session
  connected : Bool
  deriving Repr, DecidableEq

/-- The exceptions the plugin can raise, named after the spec's taxonomy:
`unsupportedOperation` is the `AnsibleError` for pipelined input,
`protocolError` the `IndexError`/`KeyError` from an unexpected response
envelope, `transferError` the `AnsibleError` wrapping a failed transfer,
`ioError` a failed local `open`, and `formatError` the `IndexError`
raised by `str.format` when a positional placeholder has no argument.
`nameError` is Python's `NameError` from referencing an unbound name,
carrying that name: the `AnsibleError` in `_get_session`'s requests
guard is never imported (the module imports only `errors` from
`ansible`), so that raise site fails before its message argument is
evaluated. `configurationError` is the typed error the spec's taxonomy
intends for the missing-requests case; the code never constructs it,
which the C8 theorem states explicitly. -/
inductive AdapterError where
  | configurationError : String → AdapterError
  | unsupportedOperation : String → AdapterError
  | protocolError : AdapterError
  | transferError : String → AdapterError
  | ioError : String → AdapterError
  | formatError : AdapterError
  | nameError : String → AdapterError
  deriving Repr, DecidableEq

/-- The `(retcode, stdout, stderr)` triple returned by `exec_command`. -/
structure ExecResult where
  retcode : Int
  stdout : String
  stderr : String
  deriving Repr, DecidableEq

/-- Python truthiness of an optional string (`if in_data:`): `None` and
the empty string are falsy. -/
def pyTruthy : Option String → Bool
  | none => false
  | some s => !(s == "")

/-! ## base64 and str.format -/

/-- The standard base64 alphabet character for a 6-bit value. -/
def b64Char (n : Nat) : Char :=
  "ABCDEFGHIJKLMNOPQRSTUVWXYZabcdefghijklmnopqrstuvwxyz0123456789+/".data.getD n '='

/-- `base64.b64encode` on a byte list: 3 bytes become 4 alphabet
characters; a 1- or 2-byte tail is padded with `'='`. -/
def b64encodeCh : List Nat → List Char
  | [] => []
  | [a] => [b64Char (a / 4), b64Char (a % 4 * 16), '=', '=']
  | [a, b] => [b64Char (a / 4), b64Char (a % 4 * 16 + b / 16), b64Char (b % 16 * 4), '=']
  | a :: b :: c :: rest =>
    b64Char (a / 4) :: b64Char (a % 4 * 16 + b / 16) ::
      b64Char (b % 16 * 4 + c / 64) :: b64Char (c % 64) :: b64encodeCh rest

/-- `base64.b64encode(...).decode('utf8')` as used by `put_file`. -/
def b64encode (bs : List Nat) : String := String.mk (b64encodeCh bs)

/-- The 6-bit value of a base64 alphabet character, if any. -/
def b64Val (c : Char) : Option Nat :=
  ("ABCDEFGHIJKLMNOPQRSTUVWXYZabcdefghijklmnopqrstuvwxyz0123456789+/".data.indexOf? c)

/-- Modelled from the spec: base64 decoding as performed by the remote
agent's file-materialize function (`hashutil.base64_decodefile` runs on
the salt minion and is not part of this repository). Standard base64:
each 4-character group yields 3 bytes, fewer at an `'='`-padded tail;
malformed input decodes to nothing. -/
def b64decodeCh : List Char → List Nat
  | c1 :: c2 :: c3 :: c4 :: rest =>
    match b64Val c1, b64Val c2 with
    | some v1, some v2 =>
      let byte1 := v1 * 4 + v2 / 16
      if c3 = '=' then [byte1]
      else
        match b64Val c3 with
        | some v3 =>
          let byte2 := v2 % 16 * 16 + v3 / 4
          if c4 = '=' then [byte1, byte2]
          else
            match b64Val c4 with
            | some v4 => byte1 :: byte2 :: (v3 % 4 * 64 + v4) :: b64decodeCh rest
            | none => []
        | none => []
    | _, _ => []
  | _ => []

/-- Reads a positional placeholder body: digits up to the closing brace;
returns the index and the remaining characters. -/
def parseIdxAux : List Char → Nat → Option (Nat × List Char)
  | [], _ => none
  | c :: rest, acc =>
    if c = '\x7d' then some (acc, rest)
    else if c.isDigit then parseIdxAux rest (acc * 10 + (c.toNat - 48))
    else none

/-- Python `template.format(*args)` restricted to positional `\x7b i \x7d`
placeholders, fuelled by the template length: substituting a placeholder
whose index has no argument is Python's `IndexError`, modelled as `none`. -/
def pyFormatAux : Nat → List Char → List String → Option (List Char)
  | _, [], _ => some []
  | 0, _ :: _, _ => none
  | fuel + 1, c :: rest, args =>
    if c = '\x7b' then
      match parseIdxAux rest 0 with
      | none => none
      | some (i, rest2) =>
        match args.get? i with
        | none => none
        | some a => (pyFormatAux fuel rest2 args).map (fun t => a.data ++ t)
    else (pyFormatAux fuel rest args).map (fun t => c :: t)

/-- Python `template.format(*args)` on strings. -/
def pyFormat (template : String) (args : List String) : Option String :=
  (pyFormatAux template.data.length template.data args).map String.mk

/-! ## The adapter operations -/

/-- The module-level `HAS_REQUESTS` flag: true iff the `requests` library
imports successfully and its version is at least 1.1.0 (the try/except
around the import raises `ImportError` for older versions). -/
def HAS_REQUESTS (requestsImports : Bool) (versionAtLeast110 : Bool) : Bool :=
  requestsImports && versionAtLeast110

/-- `Connection._get_session`: when `HAS_REQUESTS` is false the guard
executes `raise AnsibleError(...)` — but `AnsibleError` is an unbound
name in this module (only `errors` is imported), so the name lookup
raises `NameError` before the message argument is evaluated; the
intended requests-version message is never constructed. Otherwise
returns the cached session, constructing it on first use with `verify`
set from `validate_certs` and the `X-Auth-Token` header updated into the
client's default headers. Returns the session together with the updated
connector state. -/
def get_session (hasRequests : Bool) (defaultHeaders : List (String × String))
    (opts : Options) (st : ConnState) : Except AdapterError (Session × ConnState) :=
  if hasRequests = false then
    .error (.nameError "AnsibleError")
  else
    match st.session with
    | some s => .ok (s, st)
    | none =>
      let s : Session :=
        { verify := opts.validate_certs
          headers := updateAssoc defaultHeaders "X-Auth-Token" opts.token }
      .ok (s, { st with session := some s })

/-- `Connection._connect`: materializes the session and marks the
connector connected. -/
def _connect (hasRequests : Bool) (defaultHeaders : List (String × String))
    (opts : Options) (st : ConnState) : Except AdapterError ConnState :=
  match get_session hasRequests defaultHeaders opts st with
  | .error e => .error e
  | .ok (_, st1) => .ok { st1 with connected := true }

/-- `Connection.exec_command`: rejects pipelined input data, POSTs the
`cmd.exec_code_all` envelope for `self.host`, indexes
`resp.json()['return'][0][self.host]` (an out-of-range index or missing
host key raises, modelled as `protocolError`), prints a diagnostic to
stderr when the remote retcode is non-zero, and returns the triple.
The result carries the request that was POSTed, the triple, and the
side-channel stderr lines. -/
def exec_command (opts : Options) (session : Session) (host cmd : String)
    (in_data : Option String) (resp : ApiResponse) :
    Except AdapterError (PostRequest × ExecResult × List String) :=
  if pyTruthy in_data then
    .error (.unsupportedOperation
      "Internal Error: this module does not support optimized module pipelining")
  else
    let json_body : List Envelope := [⟨"local", host, "cmd.exec_code_all", ["bash", cmd]⟩]
    let req : PostRequest := ⟨opts.url, session.headers, json_body⟩
    match resp.ret.head? with
    | none => .error .protocolError
    | some m =>
      match lookupAssoc m host with
      | none => .error .protocolError
      | some p =>
        let warnings :=
          if p.retcode ≠ 0 then ["exec_command retcode != 0: " ++ cmd] else []
        .ok (req, ⟨p.retcode, p.stdout, p.stderr⟩, warnings)

/-- `Connection.put_file`: normalizes the remote path against `'/'`,
reads and base64-encodes the local file (`localFiles` models the local
filesystem; a missing file is the uncaught `open` error), builds the
`hashutil.base64_decodefile` envelope, POSTs it, and turns an HTTP error
status (`raise_for_status`, 4xx/5xx) into an `AnsibleError` naming both
paths. On success returns the request that was POSTed. -/
def put_file (opts : Options) (session : Session) (host : String)
    (localFiles : List (String × List Nat)) (in_path out_path : String)
    (status : Nat) : Except AdapterError PostRequest :=
  let outp := normalize_path out_path "/"
  match lookupAssoc localFiles in_path with
  | none => .error (.ioError in_path)
  | some bytes =>
    let content := b64encode bytes
    let req : PostRequest :=
      ⟨opts.url, session.headers, [⟨"local", host, "hashutil.base64_decodefile", [content, outp]⟩]⟩
    if 400 ≤ status ∧ status < 600 then
      .error (.transferError
        ("failed to transfer file from " ++ in_path ++ " to " ++ outp))
    else .ok req

/-- `Connection.fetch_file`: normalizes the remote path, then calls
`exec_command` with `'base64 -w0 < "\x7b0\x7d"'.format()` — the format
call has no argument for the placeholder, so it raises `IndexError`
before anything is executed. Were the exec reached, a non-zero retcode
would raise an `AnsibleError` with both paths and `stderr or stdout`;
the success branch performs no local write at all, which the returned
(always empty) list of `(path, bytes)` local writes makes explicit. -/
def fetch_file (opts : Options) (session : Session) (host : String)
    (in_path out_path : String) (resp : ApiResponse) :
    Except AdapterError (List (String × List Nat)) :=
  let inp := normalize_path in_path "/"
  match pyFormat "base64 -w0 < \"{0}\"" [] with
  | none => .error .formatError
  | some cmd =>
    match exec_command opts session host cmd none resp with
    | .error e => .error e
    | .ok (_, r, _) =>
      if r.retcode ≠ 0 then
        .error (.transferError
          ("failed to transfer file from " ++ inp ++ " to " ++ out_path ++ ": " ++
            (if r.stderr ≠ "" then r.stderr else r.stdout)))
      else .ok []

/-- `Connection.close`: the body is `pass` — the connector state,
including any cached session, is returned unchanged. -/
def close (st : ConnState) : ConnState := st

/-- Modelled from the spec: a remote agent that faithfully executes the
file-materialize function (`hashutil.base64_decodefile` runs on the salt
minion, outside this repository) — it decodes the base64 content argument
and stores the bytes at the path argument in the minion's filesystem. -/
def agentApply (remote : List (String × List Nat)) (e : Envelope) :
    List (String × List Nat) :=
  if e.fn = "hashutil.base64_decodefile" then
    match e.arg with
    | [content, path] => updateAssoc remote path (b64decodeCh content.data)
    | _ => remote
  else remote

/-- The invariant of `normpath`'s component loop: no `".."` component and
no separator inside any component. -/
def GoodSegs (l : List (List Char)) : Prop :=
  ['.', '.'] ∉ l ∧ ∀ x ∈ l, '/' ∉ x

/-! ## Concrete fixtures used by witnesses and counterexamples -/

/-- Example options: a salt master URL and token, certificates checked. -/
def optsEx : Options := ⟨"https://salt.example:8000/run", "sometoken", true⟩

/-- The session `_get_session` builds from `optsEx` and empty defaults. -/
def sessEx : Session := ⟨true, [("X-Auth-Token", "sometoken")]⟩

/-- A response whose per-host record reports a non-zero exit code. -/
def respNZ : ApiResponse := ⟨[[("minion1", ⟨1, "out", "err"⟩)]]⟩

/-- A response whose per-host record reports success. -/
def respZero : ApiResponse := ⟨[[("minion1", ⟨0, "ok", ""⟩)]]⟩

/-- A response whose first `return` element is keyed by a different host. -/
def respWrongHost : ApiResponse := ⟨[[("othernode", ⟨0, "", ""⟩)]]⟩

/-- The POST that `put_file` issues for the two-byte file `"hi"` uploaded
from `/local/hello` to `/remote/hello`. -/
def reqPutEx : PostRequest :=
  ⟨"https://salt.example:8000/run", [("X-Auth-Token", "sometoken")],
    [⟨"local", "minion1", "hashutil.base64_decodefile", ["aGk=", "/remote/hello"]⟩]⟩

/-! ## Lemmas about splitting and joining at the separator -/

theorem data_append (a b : String) : (a ++ b).data = a.data ++ b.data := rfl

theorem splitCh_ne_nil (p : List Char) : splitCh p ≠ [] := by
  cases p with
  | nil => simp [splitCh]
  | cons c rest =>
    simp only [splitCh]
    split
    · simp
    · cases h : splitCh rest <;> simp

theorem splitCh_cons_slash (p : List Char) : splitCh ('/' :: p) = [] :: splitCh p := by
  simp [splitCh]

theorem splitCh_cons_ne {c : Char} (hc : ¬ c = '/') (p : List Char) {s : List Char}
    {ss : List (List Char)} (h : splitCh p = s :: ss) :
    splitCh (c :: p) = (c :: s) :: ss := by
  simp only [splitCh, if_neg hc, h]

theorem splitCh_append_cons (a b : List Char) :
    splitCh (a ++ '/' :: b) = splitCh a ++ splitCh b := by
  induction a with
  | nil => simp [splitCh]
  | cons c a ih =>
    cases h : splitCh a with
    | nil => exact absurd h (splitCh_ne_nil a)
    | cons s ss =>
      by_cases hc : c = '/'
      · subst hc
        show splitCh ('/' :: (a ++ '/' :: b)) = splitCh ('/' :: a) ++ splitCh b
        rw [splitCh_cons_slash, splitCh_cons_slash, ih]
        simp
      · show splitCh (c :: (a ++ '/' :: b)) = splitCh (c :: a) ++ splitCh b
        have h2 : splitCh (a ++ '/' :: b) = s :: (ss ++ splitCh b) := by
          rw [ih, h]; rfl
        rw [splitCh_cons_ne hc (a ++ '/' :: b) h2, splitCh_cons_ne hc a h]
        rfl

theorem no_slash_of_mem_splitCh : ∀ {p x : List Char}, x ∈ splitCh p → '/' ∉ x := by
  intro p
  induction p with
  | nil =>
    intro x hx
    simp [splitCh] at hx
    subst hx; simp
  | cons c rest ih =>
    intro x hx
    by_cases hc : c = '/'
    · subst hc
      rw [splitCh_cons_slash] at hx
      rcases List.mem_cons.mp hx with rfl | hx
      · simp
      · exact ih hx
    · cases h : splitCh rest with
      | nil => exact absurd h (splitCh_ne_nil rest)
      | cons s ss =>
        rw [splitCh_cons_ne hc rest h] at hx
        rcases List.mem_cons.mp hx with rfl | hx
        · intro hmem
          rcases List.mem_cons.mp hmem with he | hmem
          · exact hc he.symm
          · exact ih (h ▸ List.mem_cons_self s ss) hmem
        · exact ih (h ▸ List.mem_cons_of_mem s hx)

theorem splitCh_eq_self_of_no_slash {x : List Char} (h : '/' ∉ x) : splitCh x = [x] := by
  induction x with
  | nil => rfl
  | cons c rest ih =>
    have hc : ¬ c = '/' := fun e => h (by simp [e])
    have h2 : '/' ∉ rest := fun m => h (List.mem_cons_of_mem c m)
    rw [splitCh_cons_ne hc rest (ih h2)]

theorem splitCh_joinSegs : ∀ {l : List (List Char)}, (∀ x ∈ l, '/' ∉ x) → l ≠ [] →
    splitCh (joinSegs l) = l := by
  intro l
  induction l with
  | nil => intro _ h; exact absurd rfl h
  | cons x t ih =>
    intro h _
    cases t with
    | nil =>
      show splitCh (joinSegs [x]) = [x]
      exact splitCh_eq_self_of_no_slash (h x (List.mem_cons_self x []))
    | cons y tt =>
      show splitCh (x ++ '/' :: joinSegs (y :: tt)) = x :: y :: tt
      rw [splitCh_append_cons, splitCh_eq_self_of_no_slash (h x (List.mem_cons_self x _)),
        ih (fun z hz => h z (List.mem_cons_of_mem x hz)) (by simp)]
      rfl

theorem isPrefixOf_append_self (l t : List Char) : l.isPrefixOf (l ++ t) = true := by
  induction l with
  | nil => simp [List.isPrefixOf]
  | cons c l ih => simp [List.isPrefixOf, ih]

/-! ## The normalizer eliminates `".."` on absolute paths -/

theorem npStep_good {slashes : Nat} (hs : slashes ≠ 0) {acc : List (List Char)}
    (hacc : GoodSegs acc) {comp : List Char} (hcomp : '/' ∉ comp) :
    GoodSegs (npStep slashes acc comp) := by
  unfold npStep
  split
  · exact hacc
  · split
    · rename_i hcond
      constructor
      · intro hmem
        rcases List.mem_append.mp hmem with h1 | h2
        · exact hacc.1 h1
        · have he : comp = ['.', '.'] := (List.mem_singleton.mp h2).symm
          rcases hcond with hne | ⟨h0, _⟩ | hlast
          · exact hne he
          · exact hs h0
          · exact hacc.1 (List.mem_of_mem_getLast? hlast)
      · intro x hx
        rcases List.mem_append.mp hx with h1 | h2
        · exact hacc.2 x h1
        · exact (List.mem_singleton.mp h2) ▸ hcomp
    · split
      · exact ⟨fun hm => hacc.1 (List.dropLast_subset acc hm),
               fun x hx => hacc.2 x (List.dropLast_subset acc hx)⟩
      · exact hacc

theorem foldl_npStep_good {slashes : Nat} (hs : slashes ≠ 0) :
    ∀ (comps : List (List Char)), (∀ x ∈ comps, '/' ∉ x) →
    ∀ acc, GoodSegs acc → GoodSegs (comps.foldl (npStep slashes) acc) := by
  intro comps
  induction comps with
  | nil => intro _ acc h; exact h
  | cons c t ih =>
    intro hc acc hacc
    exact ih (fun x hx => hc x (List.mem_cons_of_mem _ hx)) _
      (npStep_good hs hacc (hc c (List.mem_cons_self _ _)))

theorem ne_nil_of_slash_prefixed {p : List Char} (h : ['/'].isPrefixOf p = true) :
    p ≠ [] := by
  intro e; subst e; simp [List.isPrefixOf] at h

theorem initialSlashes_pos {p : List Char} (h : ['/'].isPrefixOf p = true) :
    initialSlashes p = 1 ∨ initialSlashes p = 2 := by
  unfold initialSlashes
  rw [if_pos h]
  split
  · right; rfl
  · left; rfl

theorem normpathCh_abs_no_dotdot {p : List Char} (h : ['/'].isPrefixOf p = true) :
    ['.', '.'] ∉ splitCh (normpathCh p) := by
  have hp : p ≠ [] := ne_nil_of_slash_prefixed h
  unfold normpathCh
  rw [if_neg hp]
  have hk12 := initialSlashes_pos h
  have hkne : initialSlashes p ≠ 0 := by rcases hk12 with e | e <;> omega
  have hgood : GoodSegs ((splitCh p).foldl (npStep (initialSlashes p)) []) :=
    foldl_npStep_good hkne (splitCh p) (fun x hx => no_slash_of_mem_splitCh hx)
      [] ⟨by simp, by simp⟩
  have hmain : ∀ j, (['.', '.'] ∉ splitCh j) →
      ∀ k, k = 1 ∨ k = 2 →
      ['.', '.'] ∉ splitCh (if List.replicate k '/' ++ j = [] then ['.']
        else List.replicate k '/' ++ j) := by
    intro j hj k hk
    rcases hk with e | e <;> subst e
    · rw [if_neg (by simp)]
      show ['.', '.'] ∉ splitCh ('/' :: j)
      rw [splitCh_cons_slash]
      intro hm
      rcases List.mem_cons.mp hm with he | hm2
      · exact absurd he (by decide)
      · exact hj hm2
    · rw [if_neg (by simp)]
      show ['.', '.'] ∉ splitCh ('/' :: '/' :: j)
      rw [splitCh_cons_slash, splitCh_cons_slash]
      intro hm
      rcases List.mem_cons.mp hm with he | hm2
      · exact absurd he (by decide)
      · rcases List.mem_cons.mp hm2 with he | hm3
        · exact absurd he (by decide)
        · exact hj hm3
  refine hmain _ ?_ _ hk12
  by_cases hnc : (splitCh p).foldl (npStep (initialSlashes p)) [] = []
  · rw [hnc]
    show ['.', '.'] ∉ splitCh ([] : List Char)
    simp [splitCh]
  · rw [splitCh_joinSegs hgood.2 hnc]
    exact hgood.1

theorem slash_prefixed_iff (rest : List Char) :
    ['/'].isPrefixOf ('/' :: rest) = true := by
  simp [List.isPrefixOf]

/-- Claim C5 (amended): for every prefix `pre` that itself contains no
`".."` segment and every normalized-absolute path `p` with a single
leading separator (not the preserved POSIX double-separator form),
`_normalize_path(p, pre)` contains no `".."` segment and starts with
`pre`. The original unrestricted claim fails for `".."`-carrying
prefixes and for `"//"`-rooted paths. -/
theorem normalize_path_anchored_amended (pre p : String)
    (hpre : ¬ hasDotDotSegment pre)
    (habs : strStartsWith p "/" = true)
    (hnorm : normpath p = p)
    (hnotdbl : strStartsWith p "//" = false) :
    ¬ hasDotDotSegment (normalize_path p pre) ∧
      strStartsWith (normalize_path p pre) pre = true := by
  obtain ⟨pd⟩ := p
  obtain ⟨prd⟩ := pre
  -- peel the leading separator off `p`
  have habs' : ['/'].isPrefixOf pd = true := habs
  cases pd with
  | nil => simp [List.isPrefixOf] at habs'
  | cons c rest =>
  have hc : c = '/' := by
    simp [List.isPrefixOf] at habs'
    exact habs'.symm
  subst hc
  -- `p` is not double-slash-rooted: `rest` does not start with the separator
  have hrest : ['/'].isPrefixOf rest = false := by
    have h2 : ['/', '/'].isPrefixOf ('/' :: rest) = false := hnotdbl
    simpa [List.isPrefixOf] using h2
  -- `p` is a `normpath` fixpoint, so it has no `".."` segment
  have hfix : normpathCh ('/' :: rest) = '/' :: rest := congrArg String.data hnorm
  have hnodd : ['.', '.'] ∉ splitCh ('/' :: rest) := by
    have := normpathCh_abs_no_dotdot (slash_prefixed_iff rest)
    rwa [hfix] at this
  have hrestnodd : ['.', '.'] ∉ splitCh rest := by
    rw [splitCh_cons_slash] at hnodd
    exact fun hm => hnodd (List.mem_cons_of_mem _ hm)
  -- unfold `normalize_path`: the path is already absolute and normalized
  have hres : normalize_path ⟨'/' :: rest⟩ ⟨prd⟩ = pyJoin ⟨prd⟩ ⟨rest⟩ := by
    unfold normalize_path
    rw [habs]
    simp only [Bool.true_eq_false, if_false, hnorm]
    rfl
  rw [hres]
  -- unfold `pyJoin`: `rest` is not absolute
  have hres2 : strStartsWith ⟨rest⟩ "/" = false := hrest
  unfold pyJoin
  rw [hres2]
  simp only [Bool.false_eq_true, if_false]
  split
  · -- `pre` is empty or ends in the separator
    rename_i hcase
    rcases hcase with hnil | hslash
    · -- empty prefix: the result is exactly `rest`
      have hprd : prd = [] := congrArg String.data hnil
      subst hprd
      refine ⟨?_, ?_⟩
      · show ['.', '.'] ∉ splitCh ((⟨[]⟩ ++ ⟨rest⟩ : String)).data
        rw [data_append]
        exact hrestnodd
      · show ([] : List Char).isPrefixOf _ = true
        simp [List.isPrefixOf]
    · -- `pre` ends in the separator: split it as `init ++ ['/']`
      have hsuf : ['/'] <:+ prd := by
        have : ['/'].isSuffixOf prd = true := hslash
        exact List.isSuffixOf_iff_suffix.mp this
      obtain ⟨init, hinit⟩ := hsuf
      refine ⟨?_, ?_⟩
      · show ['.', '.'] ∉ splitCh ((⟨prd⟩ ++ ⟨rest⟩ : String)).data
        rw [data_append]
        show ['.', '.'] ∉ splitCh (prd ++ rest)
        rw [← hinit]
        have hmid : init ++ ['/'] ++ rest = init ++ '/' :: rest := by simp
        rw [hmid, splitCh_append_cons]
        intro hm
        rcases List.mem_append.mp hm with h1 | h2
        · apply hpre
          show ['.', '.'] ∈ splitCh prd
          rw [← hinit]
          have : init ++ ['/'] = init ++ '/' :: ([] : List Char) := by simp
          rw [this, splitCh_append_cons]
          exact List.mem_append.mpr (Or.inl h1)
        · exact hrestnodd h2
      · show prd.isPrefixOf ((⟨prd⟩ ++ ⟨rest⟩ : String)).data = true
        rw [data_append]
        exact isPrefixOf_append_self prd rest
  · -- general case: a separator is inserted between `pre` and `rest`
    refine ⟨?_, ?_⟩
    · show ['.', '.'] ∉ splitCh ((⟨prd⟩ ++ "/" ++ ⟨rest⟩ : String)).data
      rw [data_append, data_append]
      show ['.', '.'] ∉ splitCh (prd ++ ['/'] ++ rest)
      have hmid : prd ++ ['/'] ++ rest = prd ++ '/' :: rest := by simp
      rw [hmid, splitCh_append_cons]
      intro hm
      rcases List.mem_append.mp hm with h1 | h2
      · exact hpre h1
      · exact hrestnodd h2
    · show prd.isPrefixOf ((⟨prd⟩ ++ "/" ++ ⟨rest⟩ : String)).data = true
      rw [data_append, data_append, List.append_assoc]
      exact isPrefixOf_append_self prd ('/' :: rest)

/-! ## Lemmas about the session dictionary -/

theorem lookupAssoc_updateAssoc {α : Type} (l : List (String × α)) (k : String) (v : α) :
    lookupAssoc (updateAssoc l k v) k = some v := by
  induction l with
  | nil => simp [updateAssoc, lookupAssoc]
  | cons kv rest ih =>
    obtain ⟨k0, v0⟩ := kv
    by_cases hk : k0 = k
    · simp [updateAssoc, hk, lookupAssoc]
    · simp [updateAssoc, hk, lookupAssoc, ih]

/-! ## The claims -/

/-- Claim C5, as frozen, is false: `"/a"` is a normalized-absolute path,
yet `_normalize_path("/a", "..")` is `"../a"`, which contains a `".."`
segment. -/
theorem normalize_path_dotdot_prefix_cx :
    strStartsWith "/a" "/" = true ∧ normpath "/a" = "/a" ∧
      hasDotDotSegment (normalize_path "/a" "..") := by decide

theorem normalize_path_anchored_amended_witness :
    ¬ hasDotDotSegment (normalize_path "/a/b" "/srv") ∧
      strStartsWith (normalize_path "/a/b" "/srv") "/srv" = true :=
  normalize_path_anchored_amended "/srv" "/a/b" (by decide) (by decide) (by decide) (by decide)

/-- Claim C6: for every path `p` not starting with the separator,
`_normalize_path(p, "/")` equals `_normalize_path("/" + p, "/")` —
inserting the leading separator is a no-op once present, because the
normalizer's first step performs exactly that insertion. -/
theorem normalize_path_leading_sep_noop (p : String)
    (h : strStartsWith p "/" = false) :
    normalize_path p "/" = normalize_path ("/" ++ p) "/" := by
  have hjoin : pyJoin "/" p = "/" ++ p := by
    unfold pyJoin
    rw [h]
    simp only [Bool.false_eq_true, if_false]
    rw [if_pos (Or.inr (by decide))]
  have h2 : strStartsWith ("/" ++ p) "/" = true := by
    obtain ⟨pd⟩ := p
    show ['/'].isPrefixOf (['/'] ++ pd) = true
    exact isPrefixOf_append_self ['/'] pd
  unfold normalize_path
  rw [h, h2, hjoin]
  simp

theorem normalize_path_leading_sep_noop_witness :
    strStartsWith "tmp/x" "/" = false ∧
      normalize_path "tmp/x" "/" = normalize_path ("/" ++ "tmp/x") "/" :=
  ⟨by decide, normalize_path_leading_sep_noop "tmp/x" (by decide)⟩

/-- Claim C1: `fetch_file` is meant to delegate to `exec_command` with a
base64-encoding command carrying the actual remote path, then decode the
result and write it to the local path. The code formats the command
template with no argument for its placeholder, so every call fails with
the `str.format` `IndexError` before any remote call; the function also
contains no decode step and no local write. -/
theorem fetch_file_always_raises (opts : Options) (session : Session)
    (host in_path out_path : String) (resp : ApiResponse) :
    fetch_file opts session host in_path out_path resp = .error .formatError := rfl

/-- Claim C2: upload followed by download of the same remote path is meant
to reproduce the original bytes. The upload half works — a faithful
remote agent stores exactly the original bytes `"hi"` — but the download
half fails with the `str.format` `IndexError` on every possible control
plane response and never writes a local file, so no bytes are ever
reproduced. -/
theorem roundtrip_fetch_fails :
    put_file optsEx sessEx "minion1" [("/local/hello", [104, 105])]
        "/local/hello" "/remote/hello" 200 = .ok reqPutEx ∧
    reqPutEx.body.foldl agentApply [] = [("/remote/hello", [104, 105])] ∧
    ∀ resp : ApiResponse,
      fetch_file optsEx sessEx "minion1" "/remote/hello" "/local/out" resp =
        .error .formatError :=
  ⟨rfl, rfl, fun _ => rfl⟩

/-- Claim C3: when the per-host result record carries a non-zero exit
code, `exec_command` does not raise — it returns the `(retcode, stdout,
stderr)` triple verbatim as data, and the only reaction to the failure is
a diagnostic line on the stderr side channel. -/
theorem exec_nonzero_is_data (opts : Options) (session : Session)
    (host cmd : String) (resp : ApiResponse) (m : List (String × HostResult))
    (p : HostResult) (h1 : resp.ret.head? = some m)
    (h2 : lookupAssoc m host = some p) (h3 : p.retcode ≠ 0) :
    exec_command opts session host cmd none resp =
      .ok (⟨opts.url, session.headers, [⟨"local", host, "cmd.exec_code_all", ["bash", cmd]⟩]⟩,
        ⟨p.retcode, p.stdout, p.stderr⟩, ["exec_command retcode != 0: " ++ cmd]) := by
  unfold exec_command
  simp only [pyTruthy, Bool.false_eq_true, if_false, h1, h2]
  rw [if_pos h3]

theorem exec_nonzero_is_data_witness :
    exec_command optsEx sessEx "minion1" "false" none respNZ =
      .ok (⟨"https://salt.example:8000/run", [("X-Auth-Token", "sometoken")],
        [⟨"local", "minion1", "cmd.exec_code_all", ["bash", "false"]⟩]⟩,
        ⟨1, "out", "err"⟩, ["exec_command retcode != 0: false"]) :=
  exec_nonzero_is_data optsEx sessEx "minion1" "false" respNZ
    [("minion1", ⟨1, "out", "err"⟩)] ⟨1, "out", "err"⟩ rfl rfl (by decide)

/-- Claim C4: when the first element of the response's `return` array has
no entry keyed by the connector's host, `exec_command` fails (the
`KeyError` of `['return'][0][self.host]`, the spec's `ProtocolError`)
rather than returning a default result. -/
theorem exec_missing_host_protocol_error (opts : Options) (session : Session)
    (host cmd : String) (resp : ApiResponse) (m : List (String × HostResult))
    (h1 : resp.ret.head? = some m) (h2 : lookupAssoc m host = none) :
    exec_command opts session host cmd none resp = .error .protocolError := by
  unfold exec_command
  simp only [pyTruthy, Bool.false_eq_true, if_false, h1, h2]

theorem exec_missing_host_protocol_error_witness :
    exec_command optsEx sessEx "minion1" "true" none respWrongHost =
      .error .protocolError :=
  exec_missing_host_protocol_error optsEx sessEx "minion1" "true" respWrongHost
    [("othernode", ⟨0, "", ""⟩)] rfl (by decide)

/-- Claim C7, as frozen, is false: `close` is `pass`, so a connector that
holds a live session still holds it after `close()` — the session is not
released. -/
theorem close_keeps_session_cx :
    (close ⟨"minion1", some ⟨true, [("X-Auth-Token", "sometoken")]⟩, true⟩).session ≠
      none := by decide

/-- Claim C7 (amended): `close` is a pure no-op — it leaves the connector
state, including any cached session, unchanged. Hence calling it twice is
a no-op both times and it is safe on a never-connected connector, but it
does not drop the session. -/
theorem close_is_noop (st : ConnState) :
    close st = st ∧ close (close st) = close st ∧ (close st).session = st.session :=
  ⟨rfl, rfl, rfl⟩

/-- Claim C8: `_get_session` is meant to fail with a typed configuration
error when the requests library is missing or older than 1.1.0. It does
fail immediately, before looking at any cached session — but through the
unbound name `AnsibleError` (only `errors` is imported), so the actual
failure is a `NameError` and the typed configuration error, message
included, is never produced. -/
theorem get_session_unbound_name (a b : Bool) (h : HAS_REQUESTS a b = false)
    (defaults : List (String × String)) (opts : Options) (st : ConnState) :
    get_session (HAS_REQUESTS a b) defaults opts st = .error (.nameError "AnsibleError") ∧
      ∀ msg : String,
        get_session (HAS_REQUESTS a b) defaults opts st ≠ .error (.configurationError msg) := by
  unfold get_session
  rw [if_pos h]
  exact ⟨rfl, fun msg hmsg => by simp at hmsg⟩

theorem get_session_unbound_name_witness :
    get_session (HAS_REQUESTS false true) [] optsEx ⟨"minion1", some sessEx, true⟩ =
      .error (.nameError "AnsibleError") :=
  (get_session_unbound_name false true rfl [] optsEx ⟨"minion1", some sessEx, true⟩).1

/-- Claim C9: at most one live session exists per connector — whenever
`_get_session` succeeds, the state it returns caches exactly the returned
session, and calling `_get_session` again on that state returns the same
session and the same state without re-creating anything. -/
theorem get_session_idempotent (hasRequests : Bool) (defaults : List (String × String))
    (opts : Options) (st : ConnState) (s : Session) (st1 : ConnState)
    (h : get_session hasRequests defaults opts st = .ok (s, st1)) :
    st1.session = some s ∧ get_session hasRequests defaults opts st1 = .ok (s, st1) := by
  unfold get_session at h ⊢
  by_cases hr : hasRequests = false
  · rw [if_pos hr] at h
    exact absurd h (by simp)
  · rw [if_neg hr] at h ⊢
    cases hs : st.session with
    | some s0 =>
      rw [hs] at h
      simp only [Except.ok.injEq, Prod.mk.injEq] at h
      obtain ⟨rfl, rfl⟩ := h
      refine ⟨hs, ?_⟩
      rw [hs]
    | none =>
      rw [hs] at h
      simp only [Except.ok.injEq, Prod.mk.injEq] at h
      obtain ⟨rfl, rfl⟩ := h
      exact ⟨rfl, rfl⟩

theorem get_session_idempotent_witness :
    (⟨"minion1", some sessEx, false⟩ : ConnState).session = some sessEx ∧
      get_session true [] optsEx ⟨"minion1", some sessEx, false⟩ =
        .ok (sessEx, ⟨"minion1", some sessEx, false⟩) :=
  get_session_idempotent true [] optsEx ⟨"minion1", none, false⟩ sessEx
    ⟨"minion1", some sessEx, false⟩ rfl

/-- Claim C10: the session constructed by the first `_get_session` call
has its TLS verification flag set exactly to `validate_certs` and carries
the `X-Auth-Token` header set to the token option; `exec_command` attaches
exactly the session's headers to every request it posts, so every such
request carries the token header. -/
theorem get_session_configures (hasRequests : Bool) (defaults : List (String × String))
    (opts : Options) (st : ConnState) (s : Session) (st1 : ConnState)
    (h0 : st.session = none)
    (h : get_session hasRequests defaults opts st = .ok (s, st1)) :
    s.verify = opts.validate_certs ∧
    lookupAssoc s.headers "X-Auth-Token" = some opts.token ∧
    ∀ (opts2 : Options) (host cmd : String) (resp : ApiResponse) (req : PostRequest)
      (r : ExecResult) (w : List String),
      exec_command opts2 s host cmd none resp = .ok (req, r, w) →
      lookupAssoc req.headers "X-Auth-Token" = some opts.token := by
  unfold get_session at h
  by_cases hr : hasRequests = false
  · rw [if_pos hr] at h
    exact absurd h (by simp)
  · rw [if_neg hr, h0] at h
    simp only [Except.ok.injEq, Prod.mk.injEq] at h
    obtain ⟨rfl, rfl⟩ := h
    refine ⟨rfl, lookupAssoc_updateAssoc defaults _ _, ?_⟩
    intro opts2 host cmd resp req r w hexec
    unfold exec_command at hexec
    simp only [pyTruthy, Bool.false_eq_true, if_false] at hexec
    split at hexec
    · exact absurd hexec (by simp)
    · split at hexec
      · exact absurd hexec (by simp)
      · simp only [Except.ok.injEq, Prod.mk.injEq] at hexec
        obtain ⟨rfl, -⟩ := hexec
        exact lookupAssoc_updateAssoc defaults _ _

theorem get_session_configures_witness :
    sessEx.verify = true ∧
      lookupAssoc sessEx.headers "X-Auth-Token" = some "sometoken" ∧
      lookupAssoc (⟨optsEx.url, sessEx.headers,
        [⟨"local", "minion1", "cmd.exec_code_all", ["bash", "true"]⟩]⟩ : PostRequest).headers
        "X-Auth-Token" = some "sometoken" := by
  have h := get_session_configures true [] optsEx ⟨"minion1", none, false⟩ sessEx
    ⟨"minion1", some sessEx, false⟩ rfl rfl
  exact ⟨h.1, h.2.1, h.2.2 optsEx "minion1" "true" respZero _ _ _ rfl⟩

end SaltApi
